import Mathlib

/-!
Verification of the text-batching core of `gfx-debug-draw`
(`src/utils.rs` and `src/text_renderer.rs`), shallowly embedded in Lean.

Machine integers are modelled as `Nat`/`Int`: all pixel arithmetic in the
source is integer arithmetic later cast to `f32`, and all sizes are `usize`
values far below overflow in any run the spec discusses. `f32` fields that
are only carried through unchanged (colors, world positions, texture
coordinates) are modelled as rationals.
-/

/-! ## Buffer grower (`src/utils.rs`, `grow_buffer`)

The source loop is

    let required_size_bytes = required_size * mem::size_of::<T>();
    let mut size = buffer.get_info().size;
    while size < required_size_bytes { size *= 2; }

`growLoopFuel` is the direct embedding: `fuel` bounds the number of loop
iterations and `none` means the loop has not terminated within that bound
(for `size = 0 < required` the loop never terminates, since `0 * 2 = 0`).
`growSize` is the total extraction on the terminating domain; the two are
related by `growLoopFuel_sound` and `growLoopFuel_complete` below.
-/

/-- One `fuel` step per iteration of the `while size < required` loop. -/
def growLoopFuel : Nat → Nat → Nat → Option Nat
  | 0, _, _ => none
  | fuel + 1, size, required =>
    if size < required then growLoopFuel fuel (size * 2) required else some size

/-- `grow_buffer` with explicit element size: byte target is
`required_size * mem::size_of::<T>()`, seed is the current buffer byte size. -/
def grow_buffer (fuel elemSizeBytes currentSizeBytes required_size : Nat) : Option Nat :=
  growLoopFuel fuel currentSizeBytes (required_size * elemSizeBytes)

/-- Total version of the doubling loop, defined on the terminating domain:
when `size = 0 < required` (where the source loop diverges) the guard
`0 < size` stops it instead; `growResult` marks that case `none`. -/
def growSize (size required : Nat) : Nat :=
  if h : size < required ∧ 0 < size then growSize (size * 2) required else size
termination_by required - size
decreasing_by
  have : size + 1 ≤ size * 2 := by omega
  omega

/-- The loop's result as a partial function: `none` exactly on the inputs
where the source `while` loop never terminates. -/
def growResult (size required : Nat) : Option Nat :=
  if 0 < size ∨ required ≤ size then some (growSize size required) else none

/-! ## Text batch renderer (`src/text_renderer.rs`)

Data model. `BitmapCharacter` and `BitmapFont` come from the external
`bitmap_font` crate: only the fields read by `draw_text` are modelled, the
character table as a partial map, and (modelled from the spec, which fixes
the fallback metric) the `Default` character has all fields zero. -/

structure BitmapCharacter where
  x : Nat
  y : Nat
  width : Nat
  height : Nat
  xoffset : Nat
  yoffset : Nat
  xadvance : Nat
deriving DecidableEq

/-- Modelled from the spec: the `Default::default()` placeholder used for
characters missing from the font has every field zero ("the fallback
metric's fields (all zero)"); the `bitmap_font` crate itself is outside this
repository's sources. -/
def default_character : BitmapCharacter :=
  { x := 0, y := 0, width := 0, height := 0, xoffset := 0, yoffset := 0, xadvance := 0 }

instance : Inhabited BitmapCharacter := ⟨default_character⟩

structure BitmapFont where
  scale_w : Nat
  scale_h : Nat
  characters : Char → Option BitmapCharacter

/-- The lookup in `draw_text`: the font's entry, or the zeroed placeholder. -/
def lookupChar (font : BitmapFont) (c : Char) : BitmapCharacter :=
  match font.characters c with
  | some bc => bc
  | none => default_character

/-- One element of `vertex_data`. Positions are integer pixel coordinates
(the source computes them in `i32` and only casts to `f32` at the end);
pass-through `f32` payloads are rationals. -/
structure Vertex where
  position : Int × Int
  texcoords : ℚ × ℚ
  world_position : ℚ × ℚ × ℚ
  screen_relative : Int
  color : ℚ × ℚ × ℚ × ℚ
deriving DecidableEq

def dummyVertex : Vertex :=
  { position := (0, 0), texcoords := (0, 0), world_position := (0, 0, 0),
    screen_relative := 0, color := (0, 0, 0, 0) }

/-- The four vertices pushed for one character, in source order:
top left, bottom left, bottom right, top right. -/
def glyphVertices (font : BitmapFont) (bc : BitmapCharacter) (x y : Int)
    (world : ℚ × ℚ × ℚ) (sr : Int) (color : ℚ × ℚ × ℚ × ℚ) : List Vertex :=
  let x_offset : Int := (bc.xoffset : Int) + x
  let y_offset : Int := (bc.yoffset : Int) + y
  let sw : ℚ := (font.scale_w : ℚ)
  let sh : ℚ := (font.scale_h : ℚ)
  [ { position := (x_offset, y_offset),
      texcoords := ((bc.x : ℚ) / sw, (bc.y : ℚ) / sh),
      world_position := world, screen_relative := sr, color := color },
    { position := (x_offset, (bc.height : Int) + y_offset),
      texcoords := ((bc.x : ℚ) / sw, ((bc.y + bc.height : Nat) : ℚ) / sh),
      world_position := world, screen_relative := sr, color := color },
    { position := ((bc.width : Int) + x_offset, (bc.height : Int) + y_offset),
      texcoords := (((bc.x + bc.width : Nat) : ℚ) / sw, ((bc.y + bc.height : Nat) : ℚ) / sh),
      world_position := world, screen_relative := sr, color := color },
    { position := ((bc.width : Int) + x_offset, y_offset),
      texcoords := (((bc.x + bc.width : Nat) : ℚ) / sw, (bc.y : ℚ) / sh),
      world_position := world, screen_relative := sr, color := color } ]

/-- The six indices pushed for one character whose first vertex sits at
offset `n` in `vertex_data`: top-left triangle `(n, n+1, n+3)` then
bottom-right triangle `(n+3, n+1, n+2)`. -/
def glyphIndices (n : Nat) : List Nat :=
  [n, n + 1, n + 3, n + 3, n + 1, n + 2]

/-- The character loop of `draw_text`: cursor `x` advances by `xadvance`
after each character; vertices and indices are appended to the pending
lists, each character's indices based at the pre-push `vertex_data.len()`. -/
def drawTextLoop (font : BitmapFont) (text : List Char) (x y : Int)
    (world : ℚ × ℚ × ℚ) (sr : Int) (color : ℚ × ℚ × ℚ × ℚ)
    (vd : List Vertex) (idx : List Nat) : List Vertex × List Nat :=
  match text with
  | [] => (vd, idx)
  | c :: rest =>
    let bc := lookupChar font c
    let n := vd.length
    drawTextLoop font rest (x + (bc.xadvance : Int)) y world sr color
      (vd ++ glyphVertices font bc x y world sr color)
      (idx ++ glyphIndices n)

/-- The vertices a call contributes, independent of the previous pending
list. -/
def textVertices (font : BitmapFont) (text : List Char) (x y : Int)
    (world : ℚ × ℚ × ℚ) (sr : Int) (color : ℚ × ℚ × ℚ × ℚ) : List Vertex :=
  match text with
  | [] => []
  | c :: rest =>
    glyphVertices font (lookupChar font c) x y world sr color ++
      textVertices font rest (x + ((lookupChar font c).xadvance : Int)) y world sr color

/-- The indices `k` characters contribute when the first character's quad
starts at vertex offset `n`. -/
def textIndices (n k : Nat) : List Nat :=
  match k with
  | 0 => []
  | k + 1 => glyphIndices n ++ textIndices (n + 4) k

/-! ## Renderer state and operations -/

/-- `mem::size_of::<Vertex>()`: 2+2 `f32` pairs, a 3-vector, an `i32` flag
and an RGBA color, 4 bytes each field element. -/
def vertexSizeBytes : Nat := 48

/-- `mem::size_of::<u32>()`. -/
def indexSizeBytes : Nat := 4

/-- `gfx::handle::Buffer::len`: element capacity of a raw buffer. -/
def bufferLen (byteSize elemBytes : Nat) : Nat := byteSize / elemBytes

/-- 4x4 matrix payload, carried through unchanged. -/
def Mat4 : Type := List (List ℚ)

def MAT4_ID : Mat4 :=
  [[1, 0, 0, 0], [0, 1, 0, 0], [0, 0, 1, 0], [0, 0, 0, 1]]

/-- The renderer state: the pending lists, GPU buffer byte capacities, and
the plain-data shader parameters. GPU handles (program, texture, sampler,
draw state) are opaque and carry no state the batching logic reads. -/
structure TextRenderer where
  bitmap_font : BitmapFont
  vertex_data : List Vertex
  index_data : List Nat
  vertex_buffer_bytes : Nat
  index_buffer_bytes : Nat
  screen_size : ℚ × ℚ
  model_view_proj : Mat4

/-- `TextRenderer::new`: empty pending lists; a vertex buffer of
`initial_buffer_size` vertices and a raw index buffer of
`initial_buffer_size * size_of::<u32>()` bytes. -/
def TextRenderer.new (font : BitmapFont) (frame_size : Nat × Nat)
    (initial_buffer_size : Nat) : TextRenderer :=
  { bitmap_font := font,
    vertex_data := [],
    index_data := [],
    vertex_buffer_bytes := initial_buffer_size * vertexSizeBytes,
    index_buffer_bytes := initial_buffer_size * indexSizeBytes,
    screen_size := ((frame_size.1 : ℚ), (frame_size.2 : ℚ)),
    model_view_proj := MAT4_ID }

/-- `TextRenderer::draw_text` (private): runs the character loop over the
pending lists. -/
def draw_text (r : TextRenderer) (text : List Char) (screen_position : Int × Int)
    (world_position : ℚ × ℚ × ℚ) (screen_relative : Int)
    (color : ℚ × ℚ × ℚ × ℚ) : TextRenderer :=
  let res := drawTextLoop r.bitmap_font text screen_position.1 screen_position.2
    world_position screen_relative color r.vertex_data r.index_data
  { r with vertex_data := res.1, index_data := res.2 }

/-- `draw_text_at_position`. -/
def draw_text_at_position (r : TextRenderer) (text : List Char)
    (world_position : ℚ × ℚ × ℚ) (color : ℚ × ℚ × ℚ × ℚ) : TextRenderer :=
  draw_text r text (0, 0) world_position 0 color

/-- `draw_text_on_screen`. -/
def draw_text_on_screen (r : TextRenderer) (text : List Char)
    (screen_position : Int × Int) (color : ℚ × ℚ × ℚ × ℚ) : TextRenderer :=
  draw_text r text screen_position (0, 0, 0) 1 color

/-- The index range handed to the draw call:
`start: 0, end: index_data.len()`, triangle list. -/
structure Slice where
  start : Nat
  stop : Nat
deriving DecidableEq

/-- The vertex-buffer step of `render`: replaced via `grow_buffer` only when
the pending count exceeds the element capacity. -/
def grownVertexBytes (r : TextRenderer) : Option Nat :=
  if r.vertex_data.length > bufferLen r.vertex_buffer_bytes vertexSizeBytes then
    growResult r.vertex_buffer_bytes (r.vertex_data.length * vertexSizeBytes)
  else some r.vertex_buffer_bytes

/-- The index-buffer step of `render`, analogous. -/
def grownIndexBytes (r : TextRenderer) : Option Nat :=
  if r.index_data.length > bufferLen r.index_buffer_bytes indexSizeBytes then
    growResult r.index_buffer_bytes (r.index_data.length * indexSizeBytes)
  else some r.index_buffer_bytes

/-- `TextRenderer::render`: grow each buffer whose element capacity is
exceeded, upload, draw the slice `0 .. index_data.len()`, clear the pending
lists. `none` marks the runs on which the source's growth loop diverges
(zero-byte buffer and a nonempty pending list). Uploads do not change
capacities and the uploaded bytes are never read back by this logic, so the
model keeps capacities only. -/
def render (r : TextRenderer) (output_size : Nat × Nat) (projection : Mat4) :
    Option (TextRenderer × Slice) :=
  match grownVertexBytes r, grownIndexBytes r with
  | some vb, some ib =>
    some ({ r with vertex_data := [],
                   index_data := [],
                   vertex_buffer_bytes := vb,
                   index_buffer_bytes := ib,
                   screen_size := ((output_size.1 : ℚ), (output_size.2 : ℚ)),
                   model_view_proj := projection },
          { start := 0, stop := r.index_data.length })
  | _, _ => none

/-- One public operation on a renderer. -/
inductive Op where
  | text (t : List Char) (sp : Int × Int) (wp : ℚ × ℚ × ℚ) (sr : Int)
      (c : ℚ × ℚ × ℚ × ℚ)
  | flush (sz : Nat × Nat) (proj : Mat4)

def runOp (r : TextRenderer) : Op → Option TextRenderer
  | Op.text t sp wp sr c => some (draw_text r t sp wp sr c)
  | Op.flush sz proj => (render r sz proj).map Prod.fst

def runOps (r : TextRenderer) : List Op → Option TextRenderer
  | [] => some r
  | op :: rest => (runOp r op).bind (fun r2 => runOps r2 rest)

/-! ## Sequences of append calls, and the pending-batch invariants -/

/-- The arguments of one `draw_text` call. -/
structure TextCall where
  t : List Char
  sp : Int × Int
  wp : ℚ × ℚ × ℚ
  sr : Int
  color : ℚ × ℚ × ℚ × ℚ

def applyTexts (r : TextRenderer) : List TextCall → TextRenderer
  | [] => r
  | tc :: rest => applyTexts (draw_text r tc.t tc.sp tc.wp tc.sr tc.color) rest

def totalChars : List TextCall → Nat
  | [] => 0
  | tc :: rest => tc.t.length + totalChars rest

/-- Every pending index refers into the pending vertex list. -/
def indexInvariant (r : TextRenderer) : Prop :=
  ∀ i ∈ r.index_data, i < r.vertex_data.length

/-! ## Concrete fixtures used by the witnesses -/

def witnessFont : BitmapFont :=
  { scale_w := 1, scale_h := 1, characters := fun _ => none }

def witnessRenderer : TextRenderer := TextRenderer.new witnessFont (1, 1) 2

/-- The state `render witnessRenderer (1, 1) MAT4_ID` produces. -/
def witnessRendererFlushed : TextRenderer :=
  { bitmap_font := witnessFont,
    vertex_data := [],
    index_data := [],
    vertex_buffer_bytes := 96,
    index_buffer_bytes := 8,
    screen_size := (((1 : Nat) : ℚ), ((1 : Nat) : ℚ)),
    model_view_proj := MAT4_ID }

def witnessCalls : List TextCall :=
  [{ t := ['A', 'B'], sp := (0, 0), wp := (0, 0, 0), sr := 1, color := (0, 0, 0, 0) }]

/-! ## Winding order, cursor advance, and the fallback glyph -/

/-- z-component of the cross product of `b - a` and `c - a`. -/
def crossZ (a b c : Int × Int) : Int :=
  (b.1 - a.1) * (c.2 - a.2) - (b.2 - a.2) * (c.1 - a.1)

/-- Counter-clockwise orientation in the y-down pixel plane: negating `y`
turns the usual positive-area test into a strictly negative cross product. -/
def ccwYDown (a b c : Int × Int) : Prop := crossZ a b c < 0

instance (a b c : Int × Int) : Decidable (ccwYDown a b c) :=
  inferInstanceAs (Decidable (crossZ a b c < 0))

def unitChar : BitmapCharacter :=
  { x := 0, y := 0, width := 1, height := 1, xoffset := 0, yoffset := 0, xadvance := 1 }

/-- The batch obtained by appending one character that the font does not
contain. -/
def zeroGlyphBatch : TextRenderer :=
  draw_text witnessRenderer ['A'] (0, 0) (0, 0, 0) 1 (0, 0, 0, 0)

/-- Total advance of a character sequence. -/
def advSum (font : BitmapFont) : List Char → Nat
  | [] => 0
  | c :: rest => (lookupChar font c).xadvance + advSum font rest

/-- Font for the spec's concrete cursor test: `A` advances 10, `B` 7. -/
def fontAB : BitmapFont :=
  { scale_w := 1, scale_h := 1,
    characters := fun c =>
      if c = 'A' then some { default_character with xadvance := 10 }
      else if c = 'B' then some { default_character with xadvance := 7 }
      else none }

/-! ## Theorems -/

theorem growSize_of_not_lt (size required : Nat) (h : ¬ (size < required ∧ 0 < size)) :
    growSize size required = size := by
  rw [growSize, dif_neg h]

theorem growSize_of_lt (size required : Nat) (h : size < required ∧ 0 < size) :
    growSize size required = growSize (size * 2) required := by
  rw [growSize, dif_pos h]

theorem growSize_le_req (size required : Nat) :
    0 < size → required ≤ growSize size required := by
  induction size, required using growSize.induct with
  | case1 size required h ih =>
    intro hp
    rw [growSize_of_lt size required h]
    exact ih (by omega)
  | case2 size required h =>
    intro hp
    rw [growSize_of_not_lt size required h]
    omega

theorem growSize_ge_self (size required : Nat) : size ≤ growSize size required := by
  induction size, required using growSize.induct with
  | case1 size required h ih =>
    rw [growSize_of_lt size required h]
    omega
  | case2 size required h =>
    rw [growSize_of_not_lt size required h]

theorem growSize_pow (size required : Nat) :
    ∃ k, growSize size required = size * 2 ^ k := by
  induction size, required using growSize.induct with
  | case1 size required h ih =>
    rw [growSize_of_lt size required h]
    obtain ⟨k, hk⟩ := ih
    exact ⟨k + 1, by rw [hk]; ring⟩
  | case2 size required h =>
    rw [growSize_of_not_lt size required h]
    exact ⟨0, by ring⟩

theorem growSize_min (size required : Nat) :
    ∀ j, required ≤ size * 2 ^ j → growSize size required ≤ size * 2 ^ j := by
  induction size, required using growSize.induct with
  | case1 size required h ih =>
    intro j hj
    rw [growSize_of_lt size required h]
    match j with
    | 0 =>
      simp at hj
      omega
    | j + 1 =>
      have heq : size * 2 ^ (j + 1) = size * 2 * 2 ^ j := by ring
      have ihj := ih j (by omega)
      omega
  | case2 size required h =>
    intro j hj
    rw [growSize_of_not_lt size required h]
    have h1 : 1 ≤ 2 ^ j := Nat.one_le_two_pow
    calc size = size * 1 := by ring
      _ ≤ size * 2 ^ j := Nat.mul_le_mul_left size h1

theorem growSize_of_le (size required : Nat) (h : required ≤ size) :
    growSize size required = size :=
  growSize_of_not_lt size required (by omega)

/-- Every terminating run of the source loop computes `growSize`. -/
theorem growLoopFuel_sound (fuel size required v : Nat)
    (h : growLoopFuel fuel size required = some v) :
    v = growSize size required := by
  induction fuel generalizing size with
  | zero => simp [growLoopFuel] at h
  | succ fuel ih =>
    by_cases hlt : size < required
    · rw [growLoopFuel, if_pos hlt] at h
      have hv := ih (size * 2) h
      by_cases hp : 0 < size
      · rw [growSize_of_lt size required ⟨hlt, hp⟩]
        exact hv
      · have hz : size = 0 := by omega
        subst hz
        simpa using hv
    · rw [growLoopFuel, if_neg hlt] at h
      rw [growSize_of_not_lt size required (by omega)]
      simpa using h.symm

/-- Whenever `growResult` declares termination, the source loop does
terminate, with the same value. -/
theorem growLoopFuel_complete (size required : Nat) :
    0 < size ∨ required ≤ size →
    ∃ fuel, growLoopFuel fuel size required = some (growSize size required) := by
  induction size, required using growSize.induct with
  | case1 size required h ih =>
    intro hd
    obtain ⟨fuel, hf⟩ := ih (Or.inl (by omega))
    refine ⟨fuel + 1, ?_⟩
    rw [growLoopFuel, if_pos h.1, hf, growSize_of_lt size required h]
  | case2 size required h =>
    intro hd
    refine ⟨1, ?_⟩
    rw [growLoopFuel, if_neg (by omega), growSize_of_not_lt size required h]

/-- Claim C1: with zero current capacity and a positive byte requirement the
source loop multiplies `0` by `2` forever: for every iteration bound the call
has not returned, so `grow_buffer` does not special-case a nonzero seed and
never reaches a positive capacity. Shown at the concrete failing input
`current_capacity_bytes = 0`, `element_size_bytes = 4`,
`required_element_count = 1`. -/
theorem grow_buffer_zero_seed_diverges :
    ∀ fuel, grow_buffer fuel 4 0 1 = none := by
  intro fuel
  induction fuel with
  | zero => rfl
  | succ fuel ih =>
    rw [grow_buffer, growLoopFuel]
    simpa [grow_buffer] using ih

/-- Claim C3: whenever `grow_buffer` returns, with positive element size,
positive required element count and a nonzero current capacity, the returned
byte capacity is at least `required_element_count * element_size_bytes`, is
the seed capacity times a power of two, and a seed exactly equal to the
required bytes is returned unchanged. -/
theorem grow_buffer_correct (fuel elemSize size reqCount v : Nat)
    (hes : 0 < elemSize) (hrc : 0 < reqCount) (hs : 0 < size)
    (h : grow_buffer fuel elemSize size reqCount = some v) :
    reqCount * elemSize ≤ v ∧ (∃ k, v = size * 2 ^ k) ∧
    (size = reqCount * elemSize → v = size) := by
  have hv := growLoopFuel_sound fuel size (reqCount * elemSize) v h
  subst hv
  refine ⟨growSize_le_req size (reqCount * elemSize) hs,
          growSize_pow size (reqCount * elemSize), ?_⟩
  intro heq
  exact growSize_of_le size (reqCount * elemSize) (by omega)

theorem grow_buffer_correct_witness :
    0 < 4 ∧ 0 < 3 ∧ 0 < 8 ∧ grow_buffer 10 4 8 3 = some 16 ∧
    (3 * 4 ≤ 16 ∧ (∃ k, 16 = 8 * 2 ^ k) ∧ (8 = 3 * 4 → 16 = 8)) :=
  ⟨by decide, by decide, by decide, by decide,
   grow_buffer_correct 10 4 8 3 16 (by decide) (by decide) (by decide) (by decide)⟩

/-- Claim C10: whenever `grow_buffer` returns from a nonzero current
capacity, the result is the least value of the form
`current_capacity * 2 ^ k` that is at least
`required_size * size_of::<T>()`; in particular a capacity already
sufficient is returned unchanged. -/
theorem grow_buffer_minimal (fuel elemSize size reqCount v : Nat)
    (hs : 0 < size) (h : grow_buffer fuel elemSize size reqCount = some v) :
    (∃ k, v = size * 2 ^ k) ∧ reqCount * elemSize ≤ v ∧
    (∀ j, reqCount * elemSize ≤ size * 2 ^ j → v ≤ size * 2 ^ j) ∧
    (reqCount * elemSize ≤ size → v = size) := by
  have hv := growLoopFuel_sound fuel size (reqCount * elemSize) v h
  subst hv
  exact ⟨growSize_pow size (reqCount * elemSize),
         growSize_le_req size (reqCount * elemSize) hs,
         growSize_min size (reqCount * elemSize),
         growSize_of_le size (reqCount * elemSize)⟩

theorem grow_buffer_minimal_witness :
    0 < 6 ∧ grow_buffer 10 4 6 5 = some 24 ∧
    ((∃ k, 24 = 6 * 2 ^ k) ∧ 5 * 4 ≤ 24 ∧
     (∀ j, 5 * 4 ≤ 6 * 2 ^ j → 24 ≤ 6 * 2 ^ j) ∧
     (5 * 4 ≤ 6 → 24 = 6)) :=
  ⟨by decide, by decide, grow_buffer_minimal 10 4 6 5 24 (by decide) (by decide)⟩

theorem glyphVertices_length (font bc x y world sr color) :
    (glyphVertices font bc x y world sr color).length = 4 := rfl

theorem drawTextLoop_eq (font : BitmapFont) (text : List Char) (x y : Int)
    (world : ℚ × ℚ × ℚ) (sr : Int) (color : ℚ × ℚ × ℚ × ℚ)
    (vd : List Vertex) (idx : List Nat) :
    drawTextLoop font text x y world sr color vd idx =
      (vd ++ textVertices font text x y world sr color,
       idx ++ textIndices vd.length text.length) := by
  induction text generalizing x vd idx with
  | nil => simp [drawTextLoop, textVertices, textIndices]
  | cons c rest ih =>
    rw [drawTextLoop]
    rw [ih]
    simp [textVertices, textIndices, glyphVertices_length]

theorem textVertices_length (font text x y world sr color) :
    (textVertices font text x y world sr color).length = 4 * text.length := by
  induction text generalizing x with
  | nil => rfl
  | cons c rest ih =>
    rw [textVertices]
    simp [glyphVertices_length, ih]
    ring

theorem textIndices_length (n k : Nat) : (textIndices n k).length = 6 * k := by
  induction k generalizing n with
  | zero => rfl
  | succ k ih =>
    rw [textIndices]
    simp [glyphIndices, ih]
    ring

theorem textIndices_bounds (n k : Nat) :
    ∀ i ∈ textIndices n k, n ≤ i ∧ i < n + 4 * k := by
  induction k generalizing n with
  | zero => intro i hi; simp [textIndices] at hi
  | succ k ih =>
    intro i hi
    rw [textIndices] at hi
    rcases List.mem_append.mp hi with h | h
    · simp [glyphIndices] at h
      omega
    · have := ih (n + 4) i h
      omega

/-! ## Helper lemmas about the operations -/

theorem draw_text_spec (r : TextRenderer) (t : List Char) (sp : Int × Int)
    (wp : ℚ × ℚ × ℚ) (sr : Int) (c : ℚ × ℚ × ℚ × ℚ) :
    (draw_text r t sp wp sr c).vertex_data =
      r.vertex_data ++ textVertices r.bitmap_font t sp.1 sp.2 wp sr c ∧
    (draw_text r t sp wp sr c).index_data =
      r.index_data ++ textIndices r.vertex_data.length t.length ∧
    (draw_text r t sp wp sr c).vertex_buffer_bytes = r.vertex_buffer_bytes ∧
    (draw_text r t sp wp sr c).index_buffer_bytes = r.index_buffer_bytes := by
  simp [draw_text, drawTextLoop_eq]

theorem growResult_some (s req v : Nat) (h : growResult s req = some v) :
    v = growSize s req ∧ (0 < s ∨ req ≤ s) := by
  unfold growResult at h
  by_cases hc : 0 < s ∨ req ≤ s
  · rw [if_pos hc] at h
    exact ⟨(Option.some.inj h).symm, hc⟩
  · rw [if_neg hc] at h
    exact absurd h (by simp)

theorem grownVertexBytes_some (r : TextRenderer) (vb : Nat)
    (h : grownVertexBytes r = some vb) :
    r.vertex_buffer_bytes ≤ vb ∧
    r.vertex_data.length ≤ bufferLen vb vertexSizeBytes := by
  unfold grownVertexBytes at h
  by_cases hc : r.vertex_data.length > bufferLen r.vertex_buffer_bytes vertexSizeBytes
  · rw [if_pos hc] at h
    obtain ⟨hv, hdom⟩ := growResult_some _ _ _ h
    have h48 : 0 < vertexSizeBytes := by decide
    have hpos : 0 < r.vertex_buffer_bytes := by
      rcases hdom with hp | hle
      · exact hp
      · exfalso
        have : r.vertex_data.length ≤ r.vertex_buffer_bytes / vertexSizeBytes :=
          (Nat.le_div_iff_mul_le h48).mpr hle
        simp [bufferLen] at hc
        omega
    subst hv
    refine ⟨growSize_ge_self _ _, ?_⟩
    have hreq := growSize_le_req r.vertex_buffer_bytes
      (r.vertex_data.length * vertexSizeBytes) hpos
    exact (Nat.le_div_iff_mul_le h48).mpr hreq
  · rw [if_neg hc] at h
    have hv := Option.some.inj h
    subst hv
    exact ⟨Nat.le_refl _, by omega⟩

theorem grownIndexBytes_some (r : TextRenderer) (ib : Nat)
    (h : grownIndexBytes r = some ib) :
    r.index_buffer_bytes ≤ ib ∧
    r.index_data.length ≤ bufferLen ib indexSizeBytes := by
  unfold grownIndexBytes at h
  by_cases hc : r.index_data.length > bufferLen r.index_buffer_bytes indexSizeBytes
  · rw [if_pos hc] at h
    obtain ⟨hv, hdom⟩ := growResult_some _ _ _ h
    have h4 : 0 < indexSizeBytes := by decide
    have hpos : 0 < r.index_buffer_bytes := by
      rcases hdom with hp | hle
      · exact hp
      · exfalso
        have : r.index_data.length ≤ r.index_buffer_bytes / indexSizeBytes :=
          (Nat.le_div_iff_mul_le h4).mpr hle
        simp [bufferLen] at hc
        omega
    subst hv
    refine ⟨growSize_ge_self _ _, ?_⟩
    have hreq := growSize_le_req r.index_buffer_bytes
      (r.index_data.length * indexSizeBytes) hpos
    exact (Nat.le_div_iff_mul_le h4).mpr hreq
  · rw [if_neg hc] at h
    have hv := Option.some.inj h
    subst hv
    exact ⟨Nat.le_refl _, by omega⟩

theorem render_some_spec (r : TextRenderer) (sz : Nat × Nat) (p : Mat4)
    (r' : TextRenderer) (s : Slice) (h : render r sz p = some (r', s)) :
    r.vertex_buffer_bytes ≤ r'.vertex_buffer_bytes ∧
    r.index_buffer_bytes ≤ r'.index_buffer_bytes ∧
    r.vertex_data.length ≤ bufferLen r'.vertex_buffer_bytes vertexSizeBytes ∧
    r.index_data.length ≤ bufferLen r'.index_buffer_bytes indexSizeBytes ∧
    r'.vertex_data = [] ∧ r'.index_data = [] ∧
    s.start = 0 ∧ s.stop = r.index_data.length := by
  unfold render at h
  rcases hv : grownVertexBytes r with _ | vb
  · rw [hv] at h
    simp at h
  rcases hi : grownIndexBytes r with _ | ib
  · rw [hv, hi] at h
    simp at h
  rw [hv, hi] at h
  obtain ⟨hv1, hv2⟩ := grownVertexBytes_some r vb hv
  obtain ⟨hi1, hi2⟩ := grownIndexBytes_some r ib hi
  injection h with hpair
  injection hpair with hr' hs
  subst hr'
  subst hs
  exact ⟨hv1, hi1, hv2, hi2, rfl, rfl, rfl, rfl⟩

/-- Flushing an empty pending batch never grows and always succeeds. -/
theorem render_empty (r : TextRenderer) (sz : Nat × Nat) (p : Mat4)
    (hv : r.vertex_data = []) (hi : r.index_data = []) :
    render r sz p =
      some ({ r with vertex_data := [], index_data := [],
                     vertex_buffer_bytes := r.vertex_buffer_bytes,
                     index_buffer_bytes := r.index_buffer_bytes,
                     screen_size := ((sz.1 : ℚ), (sz.2 : ℚ)),
                     model_view_proj := p },
            { start := 0, stop := 0 }) := by
  have hgv : grownVertexBytes r = some r.vertex_buffer_bytes := by
    unfold grownVertexBytes
    rw [if_neg (by simp [hv])]
  have hgi : grownIndexBytes r = some r.index_buffer_bytes := by
    unfold grownIndexBytes
    rw [if_neg (by simp [hi])]
  unfold render
  rw [hgv, hgi, hi]
  rfl

theorem draw_text_lengths (r : TextRenderer) (t : List Char) (sp : Int × Int)
    (wp : ℚ × ℚ × ℚ) (sr : Int) (c : ℚ × ℚ × ℚ × ℚ) :
    (draw_text r t sp wp sr c).vertex_data.length =
      r.vertex_data.length + 4 * t.length ∧
    (draw_text r t sp wp sr c).index_data.length =
      r.index_data.length + 6 * t.length := by
  obtain ⟨h1, h2, _, _⟩ := draw_text_spec r t sp wp sr c
  rw [h1, h2]
  simp [textVertices_length, textIndices_length]

theorem applyTexts_lengths (calls : List TextCall) (r : TextRenderer) :
    (applyTexts r calls).vertex_data.length =
      r.vertex_data.length + 4 * totalChars calls ∧
    (applyTexts r calls).index_data.length =
      r.index_data.length + 6 * totalChars calls := by
  induction calls generalizing r with
  | nil => simp [applyTexts, totalChars]
  | cons tc rest ih =>
    rw [applyTexts, totalChars]
    obtain ⟨ihv, ihi⟩ := ih (draw_text r tc.t tc.sp tc.wp tc.sr tc.color)
    obtain ⟨hv, hi⟩ := draw_text_lengths r tc.t tc.sp tc.wp tc.sr tc.color
    rw [ihv, ihi, hv, hi]
    constructor <;> ring

theorem draw_text_preserves_indexInvariant (r : TextRenderer) (t : List Char)
    (sp : Int × Int) (wp : ℚ × ℚ × ℚ) (sr : Int) (c : ℚ × ℚ × ℚ × ℚ)
    (hinv : indexInvariant r) : indexInvariant (draw_text r t sp wp sr c) := by
  obtain ⟨h1, h2, _, _⟩ := draw_text_spec r t sp wp sr c
  intro i hi
  rw [h2] at hi
  rw [h1]
  rcases List.mem_append.mp hi with hold | hnew
  · have := hinv i hold
    simp [textVertices_length]
    omega
  · have := textIndices_bounds r.vertex_data.length t.length i hnew
    simp [textVertices_length]
    omega

theorem runOp_capacity_and_invariant (r : TextRenderer) (op : Op) (r' : TextRenderer)
    (h : runOp r op = some r') :
    r.vertex_buffer_bytes ≤ r'.vertex_buffer_bytes ∧
    r.index_buffer_bytes ≤ r'.index_buffer_bytes ∧
    (indexInvariant r → indexInvariant r') := by
  cases op with
  | text t sp wp sr c =>
    have hr : r' = draw_text r t sp wp sr c := (Option.some.inj h).symm
    subst hr
    obtain ⟨_, _, h3, h4⟩ := draw_text_spec r t sp wp sr c
    exact ⟨le_of_eq h3.symm, le_of_eq h4.symm,
           draw_text_preserves_indexInvariant r t sp wp sr c⟩
  | flush sz proj =>
    rw [runOp] at h
    rcases hr : render r sz proj with _ | rs
    · rw [hr] at h
      simp at h
    rw [hr] at h
    obtain ⟨r2, s⟩ := rs
    have hr' : r' = r2 := by simpa using h.symm
    rw [hr']
    obtain ⟨hv1, hi1, _, _, hve, hie, _, _⟩ := render_some_spec r sz proj r2 s hr
    refine ⟨hv1, hi1, fun _ => ?_⟩
    intro i hi
    rw [hie] at hi
    simp at hi

theorem runOps_capacity_and_invariant (ops : List Op) (r r' : TextRenderer)
    (h : runOps r ops = some r') :
    r.vertex_buffer_bytes ≤ r'.vertex_buffer_bytes ∧
    r.index_buffer_bytes ≤ r'.index_buffer_bytes ∧
    (indexInvariant r → indexInvariant r') := by
  induction ops generalizing r with
  | nil =>
    have hr : r' = r := (Option.some.inj h).symm
    subst hr
    exact ⟨Nat.le_refl _, Nat.le_refl _, id⟩
  | cons op rest ih =>
    rw [runOps] at h
    rcases ho : runOp r op with _ | r2
    · rw [ho] at h
      simp at h
    rw [ho] at h
    obtain ⟨h1, h2, h3⟩ := runOp_capacity_and_invariant r op r2 ho
    obtain ⟨h4, h5, h6⟩ := ih r2 h
    exact ⟨Nat.le_trans h1 h4, Nat.le_trans h2 h5, fun hv => h6 (h3 hv)⟩

/-! ## Claims about the renderer -/

/-- Claim C2: across any sequence of `draw_text` and `render` operations the
two backing-store byte capacities never decrease, and whenever a `render`
completes, the element capacity each backing store has after the growth step
(its capacity in the post state, which upload and draw do not change) is at
least the corresponding pending list's element count at entry. -/
theorem buffer_capacity_invariant (ops : List Op) (r r' : TextRenderer)
    (h : runOps r ops = some r') :
    (r.vertex_buffer_bytes ≤ r'.vertex_buffer_bytes ∧
     r.index_buffer_bytes ≤ r'.index_buffer_bytes) ∧
    (∀ r2 sz p r3 s, render r2 sz p = some (r3, s) →
      r2.vertex_data.length ≤ bufferLen r3.vertex_buffer_bytes vertexSizeBytes ∧
      r2.index_data.length ≤ bufferLen r3.index_buffer_bytes indexSizeBytes) := by
  obtain ⟨h1, h2, _⟩ := runOps_capacity_and_invariant ops r r' h
  refine ⟨⟨h1, h2⟩, ?_⟩
  intro r2 sz p r3 s hr
  obtain ⟨_, _, h3, h4, _, _, _, _⟩ := render_some_spec r2 sz p r3 s hr
  exact ⟨h3, h4⟩

theorem buffer_capacity_invariant_witness :
    (witnessRenderer.vertex_buffer_bytes ≤ witnessRendererFlushed.vertex_buffer_bytes ∧
     witnessRenderer.index_buffer_bytes ≤ witnessRendererFlushed.index_buffer_bytes) ∧
    (∀ r2 sz p r3 s, render r2 sz p = some (r3, s) →
      r2.vertex_data.length ≤ bufferLen r3.vertex_buffer_bytes vertexSizeBytes ∧
      r2.index_data.length ≤ bufferLen r3.index_buffer_bytes indexSizeBytes) :=
  buffer_capacity_invariant [Op.flush (1, 1) MAT4_ID] witnessRenderer
    witnessRendererFlushed rfl

/-- Claim C4: starting from empty pending lists, any sequence of `draw_text`
calls leaves the pending vertex list with exactly 4 entries per appended
character and the pending index list with exactly 6. -/
theorem append_counts (r : TextRenderer) (calls : List TextCall)
    (hv : r.vertex_data = []) (hi : r.index_data = []) :
    (applyTexts r calls).vertex_data.length = 4 * totalChars calls ∧
    (applyTexts r calls).index_data.length = 6 * totalChars calls := by
  obtain ⟨h1, h2⟩ := applyTexts_lengths calls r
  rw [h1, h2, hv, hi]
  simp

theorem append_counts_witness :
    witnessRenderer.vertex_data = [] ∧ witnessRenderer.index_data = [] ∧
    ((applyTexts witnessRenderer witnessCalls).vertex_data.length =
       4 * totalChars witnessCalls ∧
     (applyTexts witnessRenderer witnessCalls).index_data.length =
       6 * totalChars witnessCalls) :=
  ⟨rfl, rfl, append_counts witnessRenderer witnessCalls rfl rfl⟩

/-- Claim C5: along any operation sequence the pending index list only holds
values below the pending vertex list's length (so also at flush time), and
each character's six emitted indices land in the window of the four vertices
just pushed for it, based at its offset in the pending batch. -/
theorem pending_indices_in_range (ops : List Op) (r r' : TextRenderer)
    (h : runOps r ops = some r') (hinv : indexInvariant r) :
    indexInvariant r' ∧
    (∀ n i, i ∈ glyphIndices n → n ≤ i ∧ i < n + 4) := by
  obtain ⟨_, _, h3⟩ := runOps_capacity_and_invariant ops r r' h
  refine ⟨h3 hinv, ?_⟩
  intro n i hi
  simp [glyphIndices] at hi
  omega

theorem pending_indices_in_range_witness :
    indexInvariant witnessRenderer ∧
    (indexInvariant witnessRendererFlushed ∧
     (∀ n i, i ∈ glyphIndices n → n ≤ i ∧ i < n + 4)) :=
  ⟨fun i hi => absurd hi (List.not_mem_nil i),
   pending_indices_in_range [Op.flush (1, 1) MAT4_ID] witnessRenderer
     witnessRendererFlushed rfl (fun i hi => absurd hi (List.not_mem_nil i))⟩

/-- Claim C6: a `render` directly after another `render`, with no `draw_text`
in between, succeeds, draws the empty index range `0 .. 0`, and leaves both
backing-store capacities exactly as the first `render` left them. -/
theorem flush_idempotent_on_empty (r r1 : TextRenderer) (s1 : Slice)
    (sz1 sz2 : Nat × Nat) (p1 p2 : Mat4)
    (h1 : render r sz1 p1 = some (r1, s1)) :
    ∃ r2 s2, render r1 sz2 p2 = some (r2, s2) ∧
      s2 = { start := 0, stop := 0 } ∧
      r2.vertex_buffer_bytes = r1.vertex_buffer_bytes ∧
      r2.index_buffer_bytes = r1.index_buffer_bytes := by
  obtain ⟨_, _, _, _, hv, hi, _, _⟩ := render_some_spec r sz1 p1 r1 s1 h1
  exact ⟨_, _, render_empty r1 sz2 p2 hv hi, rfl, rfl, rfl⟩

theorem flush_idempotent_on_empty_witness :
    ∃ r2 s2, render witnessRendererFlushed (2, 3) MAT4_ID = some (r2, s2) ∧
      s2 = { start := 0, stop := 0 } ∧
      r2.vertex_buffer_bytes = witnessRendererFlushed.vertex_buffer_bytes ∧
      r2.index_buffer_bytes = witnessRendererFlushed.index_buffer_bytes :=
  flush_idempotent_on_empty witnessRenderer witnessRendererFlushed
    { start := 0, stop := 0 } (1, 1) (2, 3) MAT4_ID MAT4_ID rfl

/-- Claim C7 (amended: the glyph's metric must have positive width and
height; the fallback glyph's quad is degenerate and has no orientation):
both triangles of the emitted quad, `(top left, bottom left, top right)`
then `(top right, bottom left, bottom right)`, are counter-clockwise in the
y-down pixel plane. -/
theorem glyph_triangles_ccw (font : BitmapFont) (bc : BitmapCharacter)
    (x y : Int) (world : ℚ × ℚ × ℚ) (sr : Int) (color : ℚ × ℚ × ℚ × ℚ)
    (hw : 0 < bc.width) (hh : 0 < bc.height) :
    ccwYDown ((glyphVertices font bc x y world sr color).getD 0 dummyVertex).position
             ((glyphVertices font bc x y world sr color).getD 1 dummyVertex).position
             ((glyphVertices font bc x y world sr color).getD 3 dummyVertex).position ∧
    ccwYDown ((glyphVertices font bc x y world sr color).getD 3 dummyVertex).position
             ((glyphVertices font bc x y world sr color).getD 1 dummyVertex).position
             ((glyphVertices font bc x y world sr color).getD 2 dummyVertex).position := by
  have hw' : 0 < (bc.width : Int) := by exact_mod_cast hw
  have hh' : 0 < (bc.height : Int) := by exact_mod_cast hh
  constructor <;>
  · simp [glyphVertices, ccwYDown, crossZ]
    nlinarith

theorem glyph_triangles_ccw_witness :
    0 < unitChar.width ∧ 0 < unitChar.height ∧
    (ccwYDown ((glyphVertices witnessFont unitChar 0 0 (0, 0, 0) 1 (0, 0, 0, 0)).getD 0 dummyVertex).position
              ((glyphVertices witnessFont unitChar 0 0 (0, 0, 0) 1 (0, 0, 0, 0)).getD 1 dummyVertex).position
              ((glyphVertices witnessFont unitChar 0 0 (0, 0, 0) 1 (0, 0, 0, 0)).getD 3 dummyVertex).position ∧
     ccwYDown ((glyphVertices witnessFont unitChar 0 0 (0, 0, 0) 1 (0, 0, 0, 0)).getD 3 dummyVertex).position
              ((glyphVertices witnessFont unitChar 0 0 (0, 0, 0) 1 (0, 0, 0, 0)).getD 1 dummyVertex).position
              ((glyphVertices witnessFont unitChar 0 0 (0, 0, 0) 1 (0, 0, 0, 0)).getD 2 dummyVertex).position) :=
  ⟨by decide, by decide,
   glyph_triangles_ccw witnessFont unitChar 0 0 (0, 0, 0) 1 (0, 0, 0, 0)
     (by decide) (by decide)⟩

/-- Claim C7 counterexample: appending a character the font lacks emits the
zero-size fallback quad, whose first triangle `(top left, bottom left,
top right)` is degenerate and not counter-clockwise — so the claim fails
for that appended glyph as stated. -/
theorem glyph_triangles_ccw_counterexample :
    ¬ ccwYDown ((zeroGlyphBatch.vertex_data.getD 0 dummyVertex).position)
               ((zeroGlyphBatch.vertex_data.getD 1 dummyVertex).position)
               ((zeroGlyphBatch.vertex_data.getD 3 dummyVertex).position) := by
  decide

theorem textVertices_left_edge (font : BitmapFont) (text : List Char)
    (y : Int) (world : ℚ × ℚ × ℚ) (sr : Int) (color : ℚ × ℚ × ℚ × ℚ) :
    ∀ x : Int, ∀ i, i < text.length →
    ((textVertices font text x y world sr color).getD (4 * i) dummyVertex).position.1
      = ((lookupChar font (text.getD i 'A')).xoffset : Int) + x
        + (advSum font (List.take i text) : Int) := by
  induction text with
  | nil =>
    intro x i hi
    simp at hi
  | cons c rest ih =>
    intro x i hi
    match i with
    | 0 =>
      rw [textVertices]
      rw [List.getD_append _ _ _ _ (by simp [glyphVertices_length])]
      simp [glyphVertices, advSum]
    | i + 1 =>
      rw [textVertices]
      rw [List.getD_append_right _ _ _ _ (by simp [glyphVertices_length])]
      have h4 : 4 * (i + 1) -
          (glyphVertices font (lookupChar font c) x y world sr color).length = 4 * i := by
        simp [glyphVertices_length]
        omega
      rw [h4]
      rw [ih (x + ((lookupChar font c).xadvance : Int)) i (by simpa using hi)]
      simp [advSum]
      ring

/-- Claim C8: the running cursor starts at the caller's horizontal pixel
position and advances by each glyph's `xadvance`: glyph `i`'s quad left edge
sits at `xoffset + x + advSum (first i glyphs)`; concretely, for text `AB`
with advances 10 and 7 from cursor 0, glyph `A`'s left edge is at 0 and
glyph `B`'s at 10. -/
theorem cursor_advance (font : BitmapFont) (text : List Char) (x y : Int)
    (world : ℚ × ℚ × ℚ) (sr : Int) (color : ℚ × ℚ × ℚ × ℚ) (i : Nat)
    (h : i < text.length) :
    (((textVertices font text x y world sr color).getD (4 * i) dummyVertex).position.1
      = ((lookupChar font (text.getD i 'A')).xoffset : Int) + x
        + (advSum font (List.take i text) : Int)) ∧
    ((textVertices fontAB (['A', 'B']) 0 0 (0, 0, 0) 1 (0, 0, 0, 0)).getD 0
        dummyVertex).position.1 = 0 ∧
    ((textVertices fontAB (['A', 'B']) 0 0 (0, 0, 0) 1 (0, 0, 0, 0)).getD 4
        dummyVertex).position.1 = 10 :=
  ⟨textVertices_left_edge font text y world sr color x i h, by decide, by decide⟩

theorem cursor_advance_witness :
    1 < (['A', 'B'] : List Char).length ∧
    ((((textVertices fontAB (['A', 'B']) 0 0 (0, 0, 0) 1 (0, 0, 0, 0)).getD (4 * 1)
         dummyVertex).position.1
      = ((lookupChar fontAB ((['A', 'B'] : List Char).getD 1 'A')).xoffset : Int) + 0
        + (advSum fontAB (List.take 1 ['A', 'B']) : Int)) ∧
     ((textVertices fontAB (['A', 'B']) 0 0 (0, 0, 0) 1 (0, 0, 0, 0)).getD 0
         dummyVertex).position.1 = 0 ∧
     ((textVertices fontAB (['A', 'B']) 0 0 (0, 0, 0) 1 (0, 0, 0, 0)).getD 4
         dummyVertex).position.1 = 10) :=
  ⟨by decide,
   cursor_advance fontAB (['A', 'B']) 0 0 (0, 0, 0) 1 (0, 0, 0, 0) 1 (by decide)⟩

/-- Claim C9: a character absent from the font-metrics table uses the
all-zero fallback metric, its four vertices form a zero-size quad exactly at
the cursor position, and the cursor for the rest of the text does not move
past it. -/
theorem missing_char_fallback (font : BitmapFont) (c : Char) (rest : List Char)
    (x y : Int) (world : ℚ × ℚ × ℚ) (sr : Int) (color : ℚ × ℚ × ℚ × ℚ)
    (h : font.characters c = none) :
    lookupChar font c = default_character ∧
    (∀ v ∈ glyphVertices font (lookupChar font c) x y world sr color,
      v.position = (x, y)) ∧
    textVertices font (c :: rest) x y world sr color =
      glyphVertices font default_character x y world sr color ++
        textVertices font rest x y world sr color := by
  have hl : lookupChar font c = default_character := by
    simp [lookupChar, h]
  refine ⟨hl, ?_, ?_⟩
  · intro v hv
    rw [hl] at hv
    simp [glyphVertices, default_character] at hv
    subst hv
    rfl
  · rw [textVertices, hl]
    simp [default_character]

theorem missing_char_fallback_witness :
    witnessFont.characters ('Z') = none ∧
    (lookupChar witnessFont ('Z') = default_character ∧
     (∀ v ∈ glyphVertices witnessFont (lookupChar witnessFont ('Z')) 5 7 (0, 0, 0) 1
          (0, 0, 0, 0), v.position = (5, 7)) ∧
     textVertices witnessFont (['Z']) 5 7 (0, 0, 0) 1 (0, 0, 0, 0) =
       glyphVertices witnessFont default_character 5 7 (0, 0, 0) 1 (0, 0, 0, 0) ++
         textVertices witnessFont ([]) 5 7 (0, 0, 0) 1 (0, 0, 0, 0)) :=
  ⟨rfl, missing_char_fallback witnessFont ('Z') ([]) 5 7 (0, 0, 0) 1 (0, 0, 0, 0) rfl⟩
